import Mathlib

/-!
# LumenNotes — Notes Data Engine, shallow embedding

A shallow embedding of the LumenNotes core (notes repository, query engine,
search engine, backup engine) translated from the TypeScript sources
(`src/services/notes-service.ts`, `src/services/storage.ts`,
`src/utils/search-utils.ts`, `src/utils/validation.ts`,
`src/constants/...` config), together with theorems settling the
specification claims about it.

Modelling conventions:
* JS `Date` values / instants are modelled as `Nat` milliseconds
  (`new Date(x).getTime()` is the identity on them).
* JS strings are Lean `String`s; `length`, `toLowerCase`, `includes`,
  `indexOf === 0`, lexicographic `<` are modelled character-wise
  (faithful for the Basic Multilingual Plane).
* `Array.prototype.sort` is stable with a user comparator `c`; a stable
  sort with a consistent comparator is uniquely determined, and equals
  `List.mergeSort` with `le a b := (c a b ≤ 0)`.  All comparators in the
  sources are of the form `key a < key b ? -1 : key a > key b ? 1 : 0`
  (or negated for descending), for which `c a b ≤ 0 ⟺ key a ≤ key b`
  (resp. `key b ≤ key a`).
* Fallible operations return an `Except String` result *paired with* the
  resulting stored state, so "state unchanged on error" is expressible.
* Nondeterministic environment inputs (`Date.now()`, random id suffixes,
  `JSON.stringify(...).length`) are passed in as explicit parameters.
-/

/-! ## Character-list string primitives (JS `includes` / `indexOf === 0` / `<`) -/

/-- `startsWithL pat l`: the char list `pat` is a prefix of `l`
(JS `l.indexOf(pat) === 0`). -/
def startsWithL : List Char → List Char → Bool
  | [], _ => true
  | _ :: _, [] => false
  | a :: as, b :: bs => a == b && startsWithL as bs

/-- `containsL pat l`: the char list `pat` occurs contiguously in `l`
(JS `l.includes(pat)`). -/
def containsL (pat : List Char) : List Char → Bool
  | [] => startsWithL pat []
  | b :: bs => startsWithL pat (b :: bs) || containsL pat bs

/-- JS `s.includes(sub)`. -/
def jsIncludes (s sub : String) : Bool := containsL sub.data s.data

/-- JS `s.indexOf(sub) === 0`. -/
def jsStartsWith (s sub : String) : Bool := startsWithL sub.data s.data

/-- Lexicographic `≤` on char lists by code point: models the JS string
comparison `a < b ? -1 : a > b ? 1 : 0` being `≤ 0`. -/
def lexLe : List Char → List Char → Bool
  | [], _ => true
  | _ :: _, [] => false
  | a :: as, b :: bs =>
    if a.toNat < b.toNat then true
    else if b.toNat < a.toNat then false
    else lexLe as bs

/-- JS `s.trim()`: strip leading and trailing whitespace, modelled
character-wise (Lean's built-in `String.trim` is equivalent but does not
reduce inside the kernel, which closed witnesses need). -/
def jsTrim (s : String) : String :=
  ⟨((s.data.dropWhile Char.isWhitespace).reverse.dropWhile Char.isWhitespace).reverse⟩

/-! ## Configuration constants (`src/constants` — `APP_CONFIG`, `ERROR_MESSAGES`) -/

def MAX_NOTES : Nat := 10000
def MAX_NOTE_LENGTH : Nat := 100000
def MAX_TITLE_LENGTH : Nat := 200
def MAX_TAGS_PER_NOTE : Nat := 10
def MAX_BACKUP_FILES : Nat := 5
def APP_VERSION : String := "1.0.0"

def TITLE_REQUIRED : String := "Note title is required"
def TITLE_TOO_LONG : String := "Title exceeds 200 characters"
def NOTE_TOO_LONG : String := "Note content exceeds 100000 characters"
def MAX_TAGS_REACHED : String := "Maximum of 10 tags per note"
def MAX_NOTES_REACHED : String := "Maximum of 10000 notes allowed"
def NOTE_NOT_FOUND : String := "Note not found"
def INVALID_BACKUP_FORMAT : String := "Invalid backup format"
def BACKUP_NOT_FOUND : String := "Backup not found"

/-! ## Data model (`src/types` — `Note`, inputs, query options) -/

/-- The central `Note` entity.  `category` and `color` are optional in the
source (`undefined` ↦ `none`); timestamps are instants (ms). -/
structure Note where
  id : String
  title : String
  content : String
  createdAt : Nat
  updatedAt : Nat
  isPinned : Bool
  isFavorite : Bool
  category : Option String
  tags : List String
  color : Option String
  isDeleted : Bool
deriving Repr, DecidableEq

/-- `CreateNoteInput`.  `none` models an absent (`undefined`) field. -/
structure CreateNoteInput where
  title : String
  content : Option String
  category : Option String
  tags : Option (List String)
  color : Option String
deriving Repr, DecidableEq

/-- `UpdateNoteInput`: partial update; `none` models an absent field.
(The runtime call sites `deleteNote`/`restoreNote`/`togglePinNote` pass
`isDeleted`/`isPinned`/`isFavorite`, so those are included.) -/
structure UpdateNoteInput where
  id : String
  title : Option String
  content : Option String
  category : Option String
  tags : Option (List String)
  color : Option String
  isPinned : Option Bool
  isFavorite : Option Bool
  isDeleted : Option Bool
deriving Repr, DecidableEq

/-! ## Validation (`notes-service.ts` — `validateNoteInput`) -/

/-- Tags clause of `validateNoteInput`. -/
def validateTagsField (tags : Option (List String)) : Option String :=
  match tags with
  | some ts => if MAX_TAGS_PER_NOTE < ts.length then some MAX_TAGS_REACHED else none
  | none => none

/-- Content clause of `validateNoteInput`, then the tags clause. -/
def validateContentField (content : Option String) (tags : Option (List String)) :
    Option String :=
  match content with
  | some c =>
    if MAX_NOTE_LENGTH < c.length then some NOTE_TOO_LONG else validateTagsField tags
  | none => validateTagsField tags

/-- `validateNoteInput` from `notes-service.ts`: checks only title
(required non-blank, max length), content length and tag count, in that
order, and only for fields present in the input.  It does **not** check
`category` or `color`. -/
def validateNoteFields (title : Option String) (content : Option String)
    (tags : Option (List String)) : Option String :=
  match title with
  | some t =>
    if jsTrim t = "" then some TITLE_REQUIRED
    else if MAX_TITLE_LENGTH < t.length then some TITLE_TOO_LONG
    else validateContentField content tags
  | none => validateContentField content tags

/-- `validateNoteInput` applied to a `CreateNoteInput` (title always present). -/
def validateNoteInput (input : CreateNoteInput) : Option String :=
  validateNoteFields (some input.title) input.content input.tags

/-- `validateNoteInput` applied to an `UpdateNoteInput`. -/
def validateUpdateInput (input : UpdateNoteInput) : Option String :=
  validateNoteFields input.title input.content input.tags

/-! ## Hex-color validator (`src/utils/validation.ts` — `isValidColor`) -/

/-- One character of the regex class `[A-Fa-f0-9]`. -/
def isHexDigitAF (c : Char) : Bool :=
  ('0' ≤ c && c ≤ '9') || ('a' ≤ c && c ≤ 'f') || ('A' ≤ c && c ≤ 'F')

/-- `isValidColor` from `utils/validation.ts`:
`/^#([A-Fa-f0-9]{6}|[A-Fa-f0-9]{3})$/.test(color)`. -/
def isValidColor (color : String) : Bool :=
  match color.data with
  | '#' :: rest =>
    (rest.length == 6 || rest.length == 3) && rest.all isHexDigitAF
  | _ => false

/-! ## Note repository operations (`notes-service.ts`)

Each operation is `load → check → modify → save` in the source; storage
reads/writes are modelled as taking and returning the stored note list.
`loadNotes` deserializes timestamps and back-fills `isFavorite := false`
for legacy entries — the identity on this typed model, where every stored
`Note` already carries instants and an `isFavorite` field. -/

/-- `NotesService.createNote`.  `newId` is the generated id, `now` is
`Date.now()`.  Returns the result and the stored collection afterwards
(unchanged on error). -/
def createNote (input : CreateNoteInput) (notes : List Note) (newId : String)
    (now : Nat) : Except String Note × List Note :=
  match validateNoteInput input with
  | some e => (.error e, notes)
  | none =>
    if MAX_NOTES ≤ notes.length then (.error MAX_NOTES_REACHED, notes)
    else
      let newNote : Note :=
        { id := newId
          title := jsTrim input.title
          content := input.content.getD ""
          createdAt := now
          updatedAt := now
          isPinned := false
          isFavorite := false
          category := input.category
          tags := input.tags.getD []
          color := input.color
          isDeleted := false }
      (.ok newNote, newNote :: notes)

/-- Replace the first element satisfying `p` by its image under `f`
(JS `findIndex` + index assignment); `none` if no element matches. -/
def updateFirst (p : Note → Bool) (f : Note → Note) : List Note → Option (Note × List Note)
  | [] => none
  | x :: xs =>
    if p x then some (f x, f x :: xs)
    else
      match updateFirst p f xs with
      | none => none
      | some (u, ys) => some (u, x :: ys)

/-- The merge `{...existingNote, ...input, updatedAt: new Date()}`:
fields present in the input override, `updatedAt` is refreshed. -/
def applyUpdate (input : UpdateNoteInput) (now : Nat) (n : Note) : Note :=
  { id := input.id
    title := input.title.getD n.title
    content := input.content.getD n.content
    createdAt := n.createdAt
    updatedAt := now
    isPinned := input.isPinned.getD n.isPinned
    isFavorite := input.isFavorite.getD n.isFavorite
    category := input.category.or n.category
    tags := input.tags.getD n.tags
    color := input.color.or n.color
    isDeleted := input.isDeleted.getD n.isDeleted }

/-- `NotesService.updateNote`. -/
def updateNote (input : UpdateNoteInput) (notes : List Note) (now : Nat) :
    Except String Note × List Note :=
  match validateUpdateInput input with
  | some e => (.error e, notes)
  | none =>
    match updateFirst (fun n => n.id == input.id) (applyUpdate input now) notes with
    | none => (.error NOTE_NOT_FOUND, notes)
    | some (u, ys) => (.ok u, ys)

/-- The `{id, isDeleted}` update payload built by `deleteNote`/`restoreNote`. -/
def setDeletedInput (id : String) (b : Bool) : UpdateNoteInput :=
  { id := id
    title := none
    content := none
    category := none
    tags := none
    color := none
    isPinned := none
    isFavorite := none
    isDeleted := some b }

/-- `NotesService.deleteNote` (soft delete): `updateNote({id, isDeleted: true})`. -/
def deleteNote (id : String) (notes : List Note) (now : Nat) :
    Except String Unit × List Note :=
  match updateNote (setDeletedInput id true) notes now with
  | (.error e, ns) => (.error e, ns)
  | (.ok _, ns) => (.ok (), ns)

/-- `NotesService.restoreNote`: `updateNote({id, isDeleted: false})`. -/
def restoreNote (id : String) (notes : List Note) (now : Nat) :
    Except String Note × List Note :=
  updateNote (setDeletedInput id false) notes now

/-- `NotesService.permanentlyDeleteNote`: removes every note with the id. -/
def permanentlyDeleteNote (id : String) (notes : List Note) : List Note :=
  notes.filter (fun n => !(n.id == id))

/-- JS `s.toLowerCase()`, modelled character-wise (faithful for the BMP).
Defined on the character list directly so that `(jsToLower s).data`
unfolds definitionally. -/
def jsToLower (s : String) : String := ⟨s.data.map Char.toLower⟩

/-! ## Query engine (`notes-service.ts` — `filterNotes`)

The source filters a copy of the input, sorts it with the stable
`Array.prototype.sort` under the asc/desc key comparator, then paginates
with `slice` only when `options.offset || options.limit` is truthy.
JS truthiness of the option fields is modelled explicitly:
an empty-string `category`/`searchTerm`, an empty `tags` array and a
`0` offset/limit are all falsy and disable the corresponding step. -/

inductive SortField | createdAt | updatedAt | title
deriving Repr, DecidableEq

inductive SortOrder | asc | desc
deriving Repr, DecidableEq

structure NotesQueryOptions where
  searchTerm : Option String
  category : Option String
  tags : Option (List String)
  isPinned : Option Bool
  includeDeleted : Option Bool
  sortBy : Option SortField
  sortOrder : Option SortOrder
  limit : Option Nat
  offset : Option Nat
deriving Repr, DecidableEq

/-- The all-absent options value (`{}` in the source). -/
def noQueryOptions : NotesQueryOptions :=
  { searchTerm := none
    category := none
    tags := none
    isPinned := none
    includeDeleted := none
    sortBy := none
    sortOrder := none
    limit := none
    offset := none }

/-- The search-term predicate of `filterNotes` (`term` is the already
lower-cased search term): case-insensitive substring match against title,
content, any tag, or category (the category access is guarded by its JS
truthiness). -/
def noteMatchesSearch (term : String) (note : Note) : Bool :=
  jsIncludes (jsToLower note.title) term ||
  jsIncludes (jsToLower note.content) term ||
  note.tags.any (fun tag => jsIncludes (jsToLower tag) term) ||
  (match note.category with
   | some c => !(c == "") && jsIncludes (jsToLower c) term
   | none => false)

/-- `≤` on the sort key selected by `sortBy` (dates compare by instant,
`title` by lower-cased text). -/
def noteKeyLe (f : SortField) (a b : Note) : Bool :=
  match f with
  | .createdAt => decide (a.createdAt ≤ b.createdAt)
  | .updatedAt => decide (a.updatedAt ≤ b.updatedAt)
  | .title => lexLe (jsToLower a.title).data (jsToLower b.title).data

/-- `sortLe f o a b` holds iff the source's comparator returns `≤ 0` on
`(a, b)`, i.e. iff a stable sort may keep `a` before `b`. -/
def sortLe (f : SortField) (o : SortOrder) (a b : Note) : Bool :=
  match o with
  | .asc => noteKeyLe f a b
  | .desc => noteKeyLe f b a

/-- Stage 1 of `filterNotes`: drop soft-deleted notes unless
`includeDeleted` is truthy. -/
def stageDeleted (options : NotesQueryOptions) (l : List Note) : List Note :=
  if options.includeDeleted.getD false then l else l.filter (fun n => !n.isDeleted)

/-- Stage 2 of `filterNotes`: keep only notes with the requested pinned
status, when `isPinned !== undefined`. -/
def stagePinned (options : NotesQueryOptions) (l : List Note) : List Note :=
  match options.isPinned with
  | some p => l.filter (fun n => n.isPinned == p)
  | none => l

/-- Stage 3 of `filterNotes`: keep only exact category matches, when
`category` is truthy (a non-empty string). -/
def stageCategory (options : NotesQueryOptions) (l : List Note) : List Note :=
  match options.category with
  | some c => if c == "" then l else l.filter (fun n => n.category == some c)
  | none => l

/-- Stage 4 of `filterNotes`: keep notes sharing **any** requested tag
(OR semantics), when `tags` is a non-empty list. -/
def stageTags (options : NotesQueryOptions) (l : List Note) : List Note :=
  match options.tags with
  | some ts =>
    if ts.isEmpty then l
    else l.filter (fun n => ts.any (fun t => n.tags.contains t))
  | none => l

/-- Stage 5 of `filterNotes`: the case-insensitive substring search,
when `searchTerm` is truthy. -/
def stageSearch (options : NotesQueryOptions) (l : List Note) : List Note :=
  match options.searchTerm with
  | some t => if t == "" then l else l.filter (noteMatchesSearch (jsToLower t))
  | none => l

/-- The filtering stages of `filterNotes` (deleted, pinned, category,
tags, search term), in source order. -/
def applyFilters (notes : List Note) (options : NotesQueryOptions) : List Note :=
  stageSearch options
    (stageTags options (stageCategory options (stagePinned options (stageDeleted options notes))))

/-- The sorting stage of `filterNotes` (defaults: `updatedAt`, `desc`). -/
def applySort (l : List Note) (options : NotesQueryOptions) : List Note :=
  l.mergeSort (sortLe (options.sortBy.getD .updatedAt) (options.sortOrder.getD .desc))

/-- The pagination stage of `filterNotes`:
`slice` is applied only when `options.offset || options.limit` is truthy,
and the end bound only when `options.limit` is truthy. -/
def applyPagination (l : List Note) (options : NotesQueryOptions) : List Note :=
  let off := options.offset.getD 0
  let lim := options.limit.getD 0
  if off ≠ 0 || lim ≠ 0 then
    if lim ≠ 0 then (l.drop off).take lim else l.drop off
  else l

/-- `filterNotes` from `notes-service.ts`: filter, sort, paginate. -/
def filterNotes (notes : List Note) (options : NotesQueryOptions) : List Note :=
  applyPagination (applySort (applyFilters notes options) options) options

/-! ## Search engine (`src/utils/search-utils.ts`) -/

/-- `calculateScore` from `search-utils.ts`: additive relevance score.
The category access is guarded by JS truthiness (`note.category && ...`). -/
def calculateScore (note : Note) (searchTerm : String) : Int :=
  let term := jsToLower searchTerm
  let titleLower := jsToLower note.title
  let s1 : Int :=
    if jsIncludes titleLower term then
      (if jsStartsWith titleLower term then 100 else 50)
    else 0
  let s2 := if jsIncludes (jsToLower note.content) term then s1 + 25 else s1
  let s3 := match note.category with
            | some c => if !(c == "") && jsIncludes (jsToLower c) term then s2 + 30 else s2
            | none => s2
  let s4 := note.tags.foldl
              (fun acc tag => if jsIncludes (jsToLower tag) term then acc + 35 else acc) s3
  let s5 := if note.isPinned then s4 + 10 else s4
  if note.isDeleted then s5 - 50 else s5

/-- One highlight span `{start, end, text}` of `findMatches`
(`end` is a Lean keyword, so the field is named `stop`). -/
structure SearchMatch where
  start : Nat
  stop : Nat
  text : String
deriving Repr, DecidableEq

/-- Left-to-right non-overlapping scan of `findMatches`: `lower`/`orig`
are the remaining lower-cased and original text (kept in lockstep),
`pos` the current index.  On a match the scan advances past it.
The `term ≠ []` guard only makes the recursion terminating; the sole
caller (`searchNotes`, via `findMatches`) always passes a non-empty term
(on an empty term the source's `while` loop would not terminate). -/
def scanMatches (term : List Char) :
    (lower : List Char) → (orig : List Char) → (pos : Nat) → List SearchMatch
  | [], _, _ => []
  | c :: ls, orig, pos =>
    if h : term ≠ [] ∧ startsWithL term (c :: ls) = true then
      { start := pos, stop := pos + term.length,
        text := ⟨orig.take term.length⟩ } ::
        scanMatches term ((c :: ls).drop term.length) (orig.drop term.length)
          (pos + term.length)
    else
      scanMatches term ls (orig.drop 1) (pos + 1)
termination_by lower _ _ => lower.length
decreasing_by
  · have h1 : 0 < term.length := List.length_pos.mpr h.1
    simp only [List.length_drop, List.length_cons]
    omega
  · simp

/-- `findMatches` from `search-utils.ts`. -/
def findMatches (text searchTerm : String) : List SearchMatch :=
  scanMatches (jsToLower searchTerm).data (jsToLower text).data text.data 0

/-- One per-field highlight group of a search result
(`matches` is a Lean keyword, so the field is named `spans`). -/
structure HighlightGroup where
  field : String
  spans : List SearchMatch
deriving Repr, DecidableEq

/-- `SearchResult<Note>`. -/
structure SearchResult where
  item : Note
  score : Int
  highlights : List HighlightGroup
deriving Repr, DecidableEq

/-- The highlight groups collected for one matching note (title, content,
category, each tag), each included only when it has at least one match. -/
def noteHighlights (note : Note) (searchTerm : String) : List HighlightGroup :=
  let titleG :=
    let ms := findMatches note.title searchTerm
    if ms.isEmpty then [] else [{ field := "title", spans := ms }]
  let contentG :=
    let ms := findMatches note.content searchTerm
    if ms.isEmpty then [] else [{ field := "content", spans := ms }]
  let categoryG :=
    match note.category with
    | some c =>
      if c == "" then []
      else
        let ms := findMatches c searchTerm
        if ms.isEmpty then [] else [{ field := "category", spans := ms }]
    | none => []
  let tagGs :=
    note.tags.enum.filterMap fun ti =>
      let ms := findMatches ti.2 searchTerm
      if ms.isEmpty then none
      else some { field := "tags[" ++ toString ti.1 ++ "]", spans := ms }
  titleG ++ contentG ++ categoryG ++ tagGs

/-- The per-note step of `searchNotes`' result collection: a result is
emitted only for a strictly positive score. -/
def searchResultOf (searchTerm : String) (note : Note) : Option SearchResult :=
  let score := calculateScore note searchTerm
  if 0 < score then
    some { item := note, score := score, highlights := noteHighlights note searchTerm }
  else none

/-- `searchNotes` from `search-utils.ts`: blank terms return every note
with score 0; otherwise collect positive-score results in input order and
stable-sort them by descending score. -/
def searchNotes (notes : List Note) (searchTerm : String) : List SearchResult :=
  if jsTrim searchTerm = "" then
    notes.map (fun note => { item := note, score := 0, highlights := [] })
  else
    (notes.filterMap (searchResultOf searchTerm)).mergeSort
      (fun a b => decide (b.score ≤ a.score))

/-! ## Backup engine (`src/services/storage.ts` — `BackupService`)

The persistent key-value store is modelled by its three backup-relevant
regions: the per-backup records (an association list keyed by
`backup_data_<id>`), the backup index (`backup_data_list`), the last
backup timestamp, plus the live `notes` collection and `settings` that
the backup engine reads and restores. -/

/-- Application settings.  Every claim treats settings as an opaque
snapshot passed through backup/restore unchanged, so only a
representative payload is modelled. -/
structure AppSettings where
  theme : String
  hapticFeedback : Bool
  previewLines : Nat
deriving Repr, DecidableEq, Inhabited

/-- `BackupMetadata` (one index entry). `source` is `'manual' | 'auto'`. -/
structure BackupMetadata where
  id : String
  timestamp : Nat
  notesCount : Nat
  size : Nat
  source : String
deriving Repr, DecidableEq

/-- The `metadata` sub-object of a `BackupData` record. -/
structure BackupDataMeta where
  notesCount : Nat
  categoriesCount : Nat
  tagsCount : Nat
  backupSource : String
deriving Repr, DecidableEq

/-- `BackupData` (one stored backup record). -/
structure BackupData where
  version : String
  timestamp : Nat
  notes : List Note
  settings : AppSettings
  metadata : BackupDataMeta
deriving Repr, DecidableEq

/-- The store state visible to the backup engine. -/
structure BackupStore where
  records : List (String × BackupData)
  backupList : List BackupMetadata
  lastBackup : Option Nat
  notes : List Note
  settings : Option AppSettings
deriving Repr, DecidableEq

/-- The storage key `` `${STORAGE_KEYS.BACKUP_DATA}_${backupId}` ``. -/
def backupKey (backupId : String) : String :=
  "@LumenNotes/backup_data" ++ "_" ++ backupId

/-- `AsyncStorage.setItem`: overwrite the value stored under `k`. -/
def kvSet (l : List (String × BackupData)) (k : String) (v : BackupData) :
    List (String × BackupData) :=
  (k, v) :: l.filter (fun p => !(p.1 == k))

/-- `AsyncStorage.getItem`. -/
def kvGet (l : List (String × BackupData)) (k : String) : Option BackupData :=
  (l.find? (fun p => p.1 == k)).map (·.2)

/-- `AsyncStorage.removeItem`. -/
def kvRemove (l : List (String × BackupData)) (k : String) :
    List (String × BackupData) :=
  l.filter (fun p => !(p.1 == k))

/-- The index comparator of `getBackupList`/`cleanupOldBackups`
(`(a, b) => new Date(b.timestamp).getTime() - new Date(a.timestamp).getTime()`):
`≤ 0` iff `b.timestamp ≤ a.timestamp`, i.e. newest first. -/
def backupLE (a b : BackupMetadata) : Bool := decide (b.timestamp ≤ a.timestamp)

/-- The newest-first stable sort applied by `getBackupList`. -/
def sortBackups (l : List BackupMetadata) : List BackupMetadata :=
  l.mergeSort backupLE

/-- `BackupService.getBackupList`: the stored index, sorted newest first. -/
def getBackupList (s : BackupStore) : List BackupMetadata :=
  sortBackups s.backupList

/-- `BackupService.deleteBackup`: remove the record, then re-read the
(sorted) index, drop the entry and store the result. -/
def deleteBackup (s : BackupStore) (backupId : String) : BackupStore :=
  let s1 := { s with records := kvRemove s.records (backupKey backupId) }
  { s1 with backupList := (getBackupList s1).filter (fun m => !(m.id == backupId)) }

/-- `BackupService.cleanupOldBackups`: when the index exceeds
`MAX_BACKUP_FILES`, sort newest first and delete everything after the
first `MAX_BACKUP_FILES` entries (the oldest ones). -/
def cleanupOldBackups (s : BackupStore) : BackupStore :=
  let backups := getBackupList s
  if backups.length ≤ MAX_BACKUP_FILES then s
  else
    let toDelete := (sortBackups backups).drop MAX_BACKUP_FILES
    toDelete.foldl (fun st b => deleteBackup st b.id) s

/-- `BackupService.updateBackupList`: prepend the new metadata to the
(sorted) index and store it. -/
def updateBackupList (s : BackupStore) (m : BackupMetadata) : BackupStore :=
  { s with backupList := m :: getBackupList s }

/-- The `metadata.categoriesCount` computation of `createBackup`:
`new Set(notes.map(n => n.category).filter(Boolean)).size`. -/
def categoriesCount (notes : List Note) : Nat :=
  ((notes.filterMap (·.category)).filter (fun c => !(c == ""))).dedup.length

/-- The `metadata.tagsCount` computation of `createBackup`:
`new Set(notes.flatMap(n => n.tags)).size`. -/
def tagsCount (notes : List Note) : Nat :=
  (notes.flatMap (·.tags)).dedup.length

/-- `BackupService.createBackup`.  `backupId` is the generated id, `now`
is the capture instant, `sizeVal` the (unmodelled) serialized length
`JSON.stringify(backupData).length`.  Stores the record, prepends the
metadata to the index, updates the last-backup timestamp and runs the
retention cleanup. -/
def createBackup (s : BackupStore) (source : String) (backupId : String)
    (now : Nat) (sizeVal : Nat) : BackupMetadata × BackupStore :=
  let notes := s.notes
  let settings := s.settings.getD default
  let backupData : BackupData :=
    { version := APP_VERSION
      timestamp := now
      notes := notes
      settings := settings
      metadata :=
        { notesCount := notes.length
          categoriesCount := categoriesCount notes
          tagsCount := tagsCount notes
          backupSource := source } }
  let s1 := { s with records := kvSet s.records (backupKey backupId) backupData }
  let metadata : BackupMetadata :=
    { id := backupId
      timestamp := now
      notesCount := notes.length
      size := sizeVal
      source := source }
  let s2 := updateBackupList s1 metadata
  let s3 := { s2 with lastBackup := some now }
  (metadata, cleanupOldBackups s3)

/-- `BackupService.restoreBackup`: load the record and overwrite the live
note collection and settings with its snapshot (full overwrite). -/
def restoreBackup (s : BackupStore) (backupId : String) :
    Except String Unit × BackupStore :=
  match kvGet s.records (backupKey backupId) with
  | none => (.error BACKUP_NOT_FOUND, s)
  | some backupData =>
    (.ok (), { s with notes := backupData.notes, settings := some backupData.settings })

/-! ### Parsed JSON values and `importBackup`

`importBackup` receives a JSON string; the claims quantify over strings
that parse, so the embedding takes the already-parsed value.  `JValue` is
the result of `JSON.parse`; `jsTruthy` is JS truthiness on it, with an
absent property (`undefined`) represented by `none` at the access site. -/

inductive JValue where
  | null
  | bool (b : Bool)
  | num (n : Int)
  | str (s : String)
  | arr (elems : List JValue)
  | obj (fields : List (String × JValue))

/-- JS truthiness of a parsed JSON value. -/
def jsTruthy : JValue → Bool
  | .null => false
  | .bool b => b
  | .num n => !(n == 0)
  | .str s => !(s == "")
  | .arr _ => true
  | .obj _ => true

/-- Property access `v.k`: `none` models `undefined`. -/
def getField (v : JValue) (k : String) : Option JValue :=
  match v with
  | .obj fields => (fields.find? (fun p => p.1 == k)).map (·.2)
  | _ => none

/-- Truthiness of a possibly-absent value (`undefined` is falsy). -/
def jsTruthyOpt (v : Option JValue) : Bool :=
  match v with
  | some w => jsTruthy w
  | none => false

/-- `typeof v === 'string'` for a possibly-absent value. -/
def isStringValue (v : Option JValue) : Bool :=
  match v with
  | some (.str _) => true
  | _ => false

/-- `typeof v === 'number'` for a possibly-absent value. -/
def isNumberValue (v : Option JValue) : Bool :=
  match v with
  | some (.num _) => true
  | _ => false

/-- `Array.isArray(v)` for a possibly-absent value. -/
def isArrayValue (v : Option JValue) : Bool :=
  match v with
  | some (.arr _) => true
  | _ => false

/-- `typeof data === 'object'` (true for objects, arrays and `null`). -/
def isObjectLike : JValue → Bool
  | .null => true
  | .arr _ => true
  | .obj _ => true
  | _ => false

/-- `BackupService.validateBackupData`, conjunct for conjunct:
`data && typeof data === 'object' && typeof data.version === 'string' &&
data.timestamp && Array.isArray(data.notes) && data.settings &&
data.metadata && typeof data.metadata.notesCount === 'number'`. -/
def validateBackupData (data : JValue) : Bool :=
  jsTruthy data &&
  isObjectLike data &&
  isStringValue (getField data "version") &&
  jsTruthyOpt (getField data "timestamp") &&
  isArrayValue (getField data "notes") &&
  jsTruthyOpt (getField data "settings") &&
  jsTruthyOpt (getField data "metadata") &&
  isNumberValue ((getField data "metadata").bind (fun m => getField m "notesCount"))

/-- Decoder from a parsed JSON note object back to a typed `Note`
(the shape produced by `exportBackup`; `isFavorite` defaults to `false`
as in `loadNotes`).  Only the failure path of `importBackup` is claim-
relevant; entries of other shapes are dropped by the typed model. -/
def decodeNote (v : JValue) : Option Note :=
  match getField v "id", getField v "title", getField v "content",
      getField v "createdAt", getField v "updatedAt" with
  | some (.str id), some (.str title), some (.str content),
      some (.num created), some (.num updated) =>
    some
      { id := id
        title := title
        content := content
        createdAt := created.toNat
        updatedAt := updated.toNat
        isPinned := jsTruthyOpt (getField v "isPinned")
        isFavorite := jsTruthyOpt (getField v "isFavorite")
        category :=
          (match getField v "category" with
           | some (.str c) => some c
           | _ => none)
        tags :=
          (match getField v "tags" with
           | some (.arr ts) =>
             ts.filterMap (fun t => match t with | .str s => some s | _ => none)
           | _ => [])
        color :=
          (match getField v "color" with
           | some (.str c) => some c
           | _ => none)
        isDeleted := jsTruthyOpt (getField v "isDeleted") }
  | _, _, _, _, _ => none

/-- The typed record stored by a successful `importBackup` (the source
stores the parsed object verbatim; this decodes it into the typed model,
with `timestamp` overwritten by the import instant as in the source). -/
def decodeBackupData (v : JValue) (now : Nat) : BackupData :=
  { version :=
      (match getField v "version" with
       | some (.str s) => s
       | _ => "")
    timestamp := now
    notes :=
      (match getField v "notes" with
       | some (.arr ns) => ns.filterMap decodeNote
       | _ => [])
    settings := default
    metadata :=
      { notesCount :=
          (match (getField v "metadata").bind (fun m => getField m "notesCount") with
           | some (.num n) => n.toNat
           | _ => 0)
        categoriesCount := 0
        tagsCount := 0
        backupSource := "manual" } }

/-- `BackupService.importBackup` on an already-parsed JSON value:
validate structurally, then store under a fresh id, update the
timestamp and prepend the metadata to the index.  On validation failure
nothing is written. -/
def importBackup (s : BackupStore) (v : JValue) (backupId : String) (now : Nat)
    (jsonLength : Nat) : Except String BackupMetadata × BackupStore :=
  if validateBackupData v then
    let backupData := decodeBackupData v now
    let s1 := { s with records := kvSet s.records (backupKey backupId) backupData }
    let metadata : BackupMetadata :=
      { id := backupId
        timestamp := now
        notesCount :=
          (match getField v "notes" with
           | some (.arr ns) => ns.length
           | _ => 0)
        size := jsonLength
        source := "manual" }
    (.ok metadata, updateBackupList s1 metadata)
  else
    (.error INVALID_BACKUP_FORMAT, s)

/-! ### Note mutations as store transitions (for the backup round-trip)

The note repository operations touch only the `notes` key; the backup
records and index live under separate keys. -/

/-- One note-repository mutation, with its environment inputs. -/
inductive NoteOp where
  | createN (input : CreateNoteInput) (newId : String) (now : Nat)
  | updateN (input : UpdateNoteInput) (now : Nat)
  | deleteN (id : String) (now : Nat)
  | restoreN (id : String) (now : Nat)
  | permanentlyDeleteN (id : String)
  | clearAllN
deriving Repr

/-- Apply a note-repository mutation to the store (only `notes` changes;
`clearAllNotes` removes the key, after which `loadNotes` yields `[]`). -/
def applyNoteOp (s : BackupStore) (op : NoteOp) : BackupStore :=
  match op with
  | .createN input newId now => { s with notes := (createNote input s.notes newId now).2 }
  | .updateN input now => { s with notes := (updateNote input s.notes now).2 }
  | .deleteN id now => { s with notes := (deleteNote id s.notes now).2 }
  | .restoreN id now => { s with notes := (restoreNote id s.notes now).2 }
  | .permanentlyDeleteN id => { s with notes := permanentlyDeleteNote id s.notes }
  | .clearAllN => { s with notes := [] }

/-! ## Order lemmas for the embedded comparators -/

theorem lexLe_refl : ∀ l, lexLe l l = true
  | [] => rfl
  | a :: as => by simp [lexLe, lexLe_refl as]

theorem lexLe_total : ∀ a b, (lexLe a b || lexLe b a) = true
  | [], _ => by simp [lexLe]
  | _ :: _, [] => by simp [lexLe]
  | a :: as, b :: bs => by
    simp only [lexLe]
    rcases Nat.lt_trichotomy a.toNat b.toNat with h | h | h
    · simp [h, Nat.not_lt.mpr (Nat.le_of_lt h)]
    · simp [h, Nat.lt_irrefl, lexLe_total as bs]
    · simp [h, Nat.not_lt.mpr (Nat.le_of_lt h)]

theorem lexLe_trans : ∀ a b c, lexLe a b = true → lexLe b c = true → lexLe a c = true
  | [], _, _, _, _ => rfl
  | _ :: _, [], _, h, _ => by simp [lexLe] at h
  | _ :: _, _ :: _, [], _, h => by simp [lexLe] at h
  | a :: as, b :: bs, c :: cs, h1, h2 => by
    simp only [lexLe] at h1 h2 ⊢
    by_cases hab : a.toNat < b.toNat
    · by_cases hbc : b.toNat < c.toNat
      · have hac : a.toNat < c.toNat := Nat.lt_trans hab hbc
        simp [hac]
      · by_cases hcb : c.toNat < b.toNat
        · simp [hbc, hcb] at h2
        · have hac : a.toNat < c.toNat := by omega
          simp [hac]
    · by_cases hba : b.toNat < a.toNat
      · simp [hab, hba] at h1
      · simp only [if_neg hab, if_neg hba] at h1
        by_cases hbc : b.toNat < c.toNat
        · have hac : a.toNat < c.toNat := by omega
          simp [hac]
        · by_cases hcb : c.toNat < b.toNat
          · simp [hbc, hcb] at h2
          · simp only [if_neg hbc, if_neg hcb] at h2
            have hac : ¬ a.toNat < c.toNat := by omega
            have hca : ¬ c.toNat < a.toNat := by omega
            simp only [if_neg hac, if_neg hca]
            exact lexLe_trans as bs cs h1 h2

theorem noteKeyLe_trans (f : SortField) (a b c : Note)
    (h1 : noteKeyLe f a b = true) (h2 : noteKeyLe f b c = true) :
    noteKeyLe f a c = true := by
  cases f <;> simp only [noteKeyLe] at *
  · exact decide_eq_true (Nat.le_trans (of_decide_eq_true h1) (of_decide_eq_true h2))
  · exact decide_eq_true (Nat.le_trans (of_decide_eq_true h1) (of_decide_eq_true h2))
  · exact lexLe_trans _ _ _ h1 h2

theorem noteKeyLe_total (f : SortField) (a b : Note) :
    (noteKeyLe f a b || noteKeyLe f b a) = true := by
  cases f <;> simp only [noteKeyLe]
  · by_cases h : a.createdAt ≤ b.createdAt <;> simp [h] <;> omega
  · by_cases h : a.updatedAt ≤ b.updatedAt <;> simp [h] <;> omega
  · exact lexLe_total _ _

theorem sortLe_trans (f : SortField) (o : SortOrder) (a b c : Note)
    (h1 : sortLe f o a b = true) (h2 : sortLe f o b c = true) :
    sortLe f o a c = true := by
  cases o <;> simp only [sortLe] at *
  · exact noteKeyLe_trans f a b c h1 h2
  · exact noteKeyLe_trans f c b a h2 h1

theorem sortLe_total (f : SortField) (o : SortOrder) (a b : Note) :
    (sortLe f o a b || sortLe f o b a) = true := by
  cases o <;> simp only [sortLe]
  · exact noteKeyLe_total f a b
  · have := noteKeyLe_total f b a
    rcases Bool.or_eq_true_iff.mp this with h | h <;> simp [h]

theorem backupLE_trans (a b c : BackupMetadata)
    (h1 : backupLE a b = true) (h2 : backupLE b c = true) : backupLE a c = true := by
  simp only [backupLE, decide_eq_true_eq] at *
  omega

theorem backupLE_total (a b : BackupMetadata) :
    (backupLE a b || backupLE b a) = true := by
  simp only [backupLE]
  by_cases h : b.timestamp ≤ a.timestamp <;> simp [h] <;> omega

/-! ## A stable sort keeps any le-constant fibre in input order -/

/-- If all elements satisfying `p` are mutually `le`-related, then the
stable `mergeSort` keeps the `p`-fibre exactly as it occurs in the input:
ties are broken by input position. -/
theorem mergeSort_filter_fixed {α : Type} {le : α → α → Bool}
    (htrans : ∀ a b c, le a b = true → le b c = true → le a c = true)
    (htotal : ∀ a b, (le a b || le b a) = true)
    (l : List α) (p : α → Bool)
    (hconst : ∀ a b, p a = true → p b = true → le a b = true) :
    (l.mergeSort le).filter p = l.filter p := by
  have hsubl : List.Sublist (l.filter p) l := List.filter_sublist l
  have hpw : (l.filter p).Pairwise (fun a b => le a b = true) :=
    List.pairwise_of_forall_mem_list fun a ha b hb =>
      hconst a b (List.mem_filter.mp ha).2 (List.mem_filter.mp hb).2
  have h1 : List.Sublist (l.filter p) (l.mergeSort le) :=
    List.sublist_mergeSort htrans htotal hpw hsubl
  have h2 : (l.filter p).filter p = l.filter p :=
    List.filter_eq_self.mpr fun a ha => (List.mem_filter.mp ha).2
  have h3 : List.Sublist (l.filter p) ((l.mergeSort le).filter p) := by
    have := h1.filter p
    rwa [h2] at this
  have h4 : ((l.mergeSort le).filter p).length = (l.filter p).length :=
    ((List.mergeSort_perm l le).filter p).length_eq
  exact (h3.eq_of_length h4.symm).symm

/-! ## Sample data for closed counterexamples and witnesses -/

def sampleNote : Note :=
  { id := "note_1"
    title := "Sample"
    content := ""
    createdAt := 0
    updatedAt := 0
    isPinned := false
    isFavorite := false
    category := none
    tags := []
    color := none
    isDeleted := false }

/-- A collection holding exactly `MAX_NOTES` notes. -/
def fullCollection : List Note := List.replicate MAX_NOTES sampleNote

/-- A create input whose title is blank after trimming. -/
def blankTitleInput : CreateNoteInput :=
  { title := "   ", content := none, category := none, tags := none, color := none }

/-- A create input passing `validateNoteInput`. -/
def validTitleInput : CreateNoteInput :=
  { title := "Groceries", content := none, category := none, tags := none, color := none }

/-! ## C1 — capacity enforcement in `createNote` -/

/-- C1 (counterexample): at a full collection (`MAX_NOTES` notes) a
create input with a blank title yields the `Validation` error
`TITLE_REQUIRED`, **not** `CapacityExceeded` — validation runs before the
capacity check, so "createNote with any input returns a CapacityExceeded
error" fails as stated. -/
theorem createNote_full_blank_title_not_capacity :
    MAX_NOTES ≤ fullCollection.length ∧
    (createNote blankTitleInput fullCollection "note_new" 1).1 =
      Except.error TITLE_REQUIRED ∧
    (createNote blankTitleInput fullCollection "note_new" 1).1 ≠
      Except.error MAX_NOTES_REACHED := by
  refine ⟨by simp [fullCollection], rfl, ?_⟩
  rw [show (createNote blankTitleInput fullCollection "note_new" 1).1 =
      Except.error TITLE_REQUIRED from rfl]
  intro h
  have : TITLE_REQUIRED = MAX_NOTES_REACHED := by injection h
  simp [TITLE_REQUIRED, MAX_NOTES_REACHED] at this

/-- C1 (amended): for every stored collection holding at least
`MAX_NOTES` notes (active and soft-deleted alike), `createNote` with any
input *passing validation* returns the `CapacityExceeded` error and
leaves the stored collection unchanged. -/
theorem createNote_capacity_enforced (input : CreateNoteInput) (notes : List Note)
    (newId : String) (now : Nat)
    (hval : validateNoteInput input = none)
    (hfull : MAX_NOTES ≤ notes.length) :
    createNote input notes newId now = (.error MAX_NOTES_REACHED, notes) := by
  simp [createNote, hval, hfull]

/-- C1 (witness): a concrete valid input against the full collection. -/
theorem createNote_capacity_enforced_witness :
    validateNoteInput validTitleInput = none ∧
    MAX_NOTES ≤ fullCollection.length ∧
    createNote validTitleInput fullCollection "note_new" 1 =
      (.error MAX_NOTES_REACHED, fullCollection) :=
  ⟨rfl, by simp [fullCollection],
    createNote_capacity_enforced validTitleInput fullCollection "note_new" 1 rfl
      (by simp [fullCollection])⟩

/-! ## C2 — soft-delete / restore round trip -/

theorem updateFirst_append (p : Note → Bool) (f : Note → Note) :
    ∀ (pre : List Note) (a : Note) (post : List Note),
      (∀ x ∈ pre, p x = false) → p a = true →
      updateFirst p f (pre ++ a :: post) = some (f a, pre ++ f a :: post)
  | [], a, post, _, ha => by simp [updateFirst, ha]
  | x :: xs, a, post, hpre, ha => by
    have hx : p x = false := hpre x (by simp)
    have ih := updateFirst_append p f xs a post (fun y hy => hpre y (by simp [hy])) ha
    simp [updateFirst, hx, ih]

/-- C2: for every note in a collection with pairwise-distinct ids,
`deleteNote` (soft delete) followed by `restoreNote` succeeds and yields
a note equal to the pre-delete note in every field — id, title, content,
createdAt, isPinned, isFavorite, category, tags, color — with
`isDeleted` back to `false`, while `updatedAt` is refreshed once by each
of the two operations (to `t1`, then to `t2`); the surrounding
collection is untouched. -/
theorem softDelete_restore_roundtrip (notes : List Note) (note : Note) (t1 t2 : Nat)
    (hmem : note ∈ notes) (hnd : (notes.map (·.id)).Nodup) :
    ∃ pre post,
      notes = pre ++ note :: post ∧
      deleteNote note.id notes t1 =
        (.ok (), pre ++ { note with isDeleted := true, updatedAt := t1 } :: post) ∧
      restoreNote note.id
          (pre ++ { note with isDeleted := true, updatedAt := t1 } :: post) t2 =
        (.ok { note with isDeleted := false, updatedAt := t2 },
         pre ++ { note with isDeleted := false, updatedAt := t2 } :: post) := by
  obtain ⟨pre, post, rfl⟩ := List.append_of_mem hmem
  refine ⟨pre, post, rfl, ?_, ?_⟩
  · have hpre : ∀ x ∈ pre, (x.id == note.id) = false := by
      intro x hx
      have hdisj : (pre.map (·.id)).Disjoint ((note :: post).map (·.id)) := by
        rw [List.map_append] at hnd
        exact List.disjoint_of_nodup_append hnd
      have : x.id ≠ note.id := fun he =>
        hdisj (List.mem_map_of_mem _ hx) (by simp [he])
      simp [this]
    have hup := updateFirst_append (fun n => n.id == note.id)
        (applyUpdate (setDeletedInput note.id true) t1) pre note post hpre (by simp)
    have happ : applyUpdate (setDeletedInput note.id true) t1 note =
        { note with isDeleted := true, updatedAt := t1 } := rfl
    rw [happ] at hup
    have hv : validateUpdateInput (setDeletedInput note.id true) = none := rfl
    have hup' : updateFirst (fun n => n.id == (setDeletedInput note.id true).id)
        (applyUpdate (setDeletedInput note.id true) t1) (pre ++ note :: post) =
        some ({ note with isDeleted := true, updatedAt := t1 },
          pre ++ { note with isDeleted := true, updatedAt := t1 } :: post) := hup
    simp [deleteNote, updateNote, hv, hup']
  · have hpre : ∀ x ∈ pre, (x.id == note.id) = false := by
      intro x hx
      have hdisj : (pre.map (·.id)).Disjoint ((note :: post).map (·.id)) := by
        rw [List.map_append] at hnd
        exact List.disjoint_of_nodup_append hnd
      have : x.id ≠ note.id := fun he =>
        hdisj (List.mem_map_of_mem _ hx) (by simp [he])
      simp [this]
    have hup := updateFirst_append (fun n => n.id == note.id)
        (applyUpdate (setDeletedInput note.id false) t2) pre
        { note with isDeleted := true, updatedAt := t1 } post hpre (by simp)
    have happ : applyUpdate (setDeletedInput note.id false) t2
        { note with isDeleted := true, updatedAt := t1 } =
        { note with isDeleted := false, updatedAt := t2 } := rfl
    rw [happ] at hup
    have hv : validateUpdateInput (setDeletedInput note.id false) = none := rfl
    have hup' : updateFirst (fun n => n.id == (setDeletedInput note.id false).id)
        (applyUpdate (setDeletedInput note.id false) t2)
        (pre ++ { note with isDeleted := true, updatedAt := t1 } :: post) =
        some ({ note with isDeleted := false, updatedAt := t2 },
          pre ++ { note with isDeleted := false, updatedAt := t2 } :: post) := hup
    simp [restoreNote, updateNote, hv, hup']

/-- C2 (witness): the round trip on a concrete one-note collection. -/
theorem softDelete_restore_roundtrip_witness :
    sampleNote ∈ [sampleNote] ∧ (([sampleNote].map (·.id)).Nodup) ∧
    ∃ pre post,
      [sampleNote] = pre ++ sampleNote :: post ∧
      deleteNote sampleNote.id [sampleNote] 1 =
        (.ok (), pre ++ { sampleNote with isDeleted := true, updatedAt := 1 } :: post) ∧
      restoreNote sampleNote.id
          (pre ++ { sampleNote with isDeleted := true, updatedAt := 1 } :: post) 2 =
        (.ok { sampleNote with isDeleted := false, updatedAt := 2 },
         pre ++ { sampleNote with isDeleted := false, updatedAt := 2 } :: post) :=
  ⟨by simp, by simp,
    softDelete_restore_roundtrip [sampleNote] sampleNote 1 2 (by simp) (by simp)⟩

/-! ## C3 — `createNote` and the hex-color rule -/

/-- A create input carrying a color that fails the hex pattern. -/
def redColorInput : CreateNoteInput :=
  { title := "Test", content := none, category := none, tags := none, color := some "red" }

/-- C3 (counterexample): `"red"` does not match `#RGB`/`#RRGGBB`
(`isValidColor "red" = false`), yet `createNote` succeeds and stores the
note with that color — it returns no `Validation` error and the
collection grows, contradicting the claim as stated. -/
theorem createNote_invalid_color_accepted :
    isValidColor "red" = false ∧
    (createNote redColorInput [] "note_1" 5).1 =
      .ok { id := "note_1", title := "Test", content := "", createdAt := 5,
            updatedAt := 5, isPinned := false, isFavorite := false,
            category := none, tags := [], color := some "red", isDeleted := false } ∧
    (createNote redColorInput [] "note_1" 5).2 ≠ ([] : List Note) := by
  refine ⟨by decide, rfl, ?_⟩
  rw [show (createNote redColorInput [] "note_1" 5).2 =
      [{ id := "note_1", title := "Test", content := "", createdAt := 5,
         updatedAt := 5, isPinned := false, isFavorite := false,
         category := none, tags := [], color := some "red", isDeleted := false }] from rfl]
  simp

/-- C3 (amended): `createNote` does not validate `color` at all — for
every input whose title/content/tags pass `validateNoteInput`, creation
succeeds (capacity permitting) regardless of the color value, and the
created note stores that color verbatim.  The `#RGB`/`#RRGGBB` rule
exists only in the standalone validator `isValidColor`
(`utils/validation.ts`), which `createNote` never invokes. -/
theorem createNote_color_not_validated (input : CreateNoteInput) (notes : List Note)
    (newId : String) (now : Nat)
    (hval : validateNoteInput input = none)
    (hlen : notes.length < MAX_NOTES) :
    ∃ n, createNote input notes newId now = (.ok n, n :: notes) ∧
      n.color = input.color := by
  refine ⟨{ id := newId
            title := jsTrim input.title
            content := input.content.getD ""
            createdAt := now
            updatedAt := now
            isPinned := false
            isFavorite := false
            category := input.category
            tags := input.tags.getD []
            color := input.color
            isDeleted := false }, ?_, rfl⟩
  simp [createNote, hval, Nat.not_le.mpr hlen]

/-- C3 (witness): the invalid-color input on the empty collection. -/
theorem createNote_color_not_validated_witness :
    validateNoteInput redColorInput = none ∧ ([] : List Note).length < MAX_NOTES ∧
    isValidColor "red" = false ∧
    ∃ n, createNote redColorInput [] "note_1" 5 = (.ok n, n :: []) ∧
      n.color = redColorInput.color :=
  ⟨rfl, by decide, by decide,
    createNote_color_not_validated redColorInput [] "note_1" 5 rfl (by decide)⟩

/-! ## C10 — pagination skipped for falsy offset/limit -/

/-- C10: whenever `limit` is `0` and `offset` is `0` or absent (both JS
falsy), `filterNotes` skips the pagination `slice` entirely and returns
the whole filtered and sorted list, not an empty page. -/
theorem filterNotes_zero_pagination (notes : List Note) (opts : NotesQueryOptions)
    (hlim : opts.limit = some 0)
    (hoff : opts.offset = some 0 ∨ opts.offset = none) :
    filterNotes notes opts = applySort (applyFilters notes opts) opts := by
  rcases hoff with h | h <;> simp [filterNotes, applyPagination, hlim, h]

/-- C10 (witness): `limit = 0`, `offset` absent, on a two-note list. -/
theorem filterNotes_zero_pagination_witness :
    ({ noQueryOptions with limit := some 0 } : NotesQueryOptions).limit = some 0 ∧
    (({ noQueryOptions with limit := some 0 } : NotesQueryOptions).offset = some 0 ∨
      ({ noQueryOptions with limit := some 0 } : NotesQueryOptions).offset = none) ∧
    filterNotes [sampleNote, { sampleNote with id := "note_2" }]
        { noQueryOptions with limit := some 0 } =
      applySort
        (applyFilters [sampleNote, { sampleNote with id := "note_2" }]
          { noQueryOptions with limit := some 0 })
        { noQueryOptions with limit := some 0 } :=
  ⟨rfl, Or.inr rfl,
    filterNotes_zero_pagination [sampleNote, { sampleNote with id := "note_2" }]
      { noQueryOptions with limit := some 0 } rfl (Or.inr rfl)⟩

/-! ## C9 — filter-only queries are stable and pure -/

theorem mem_of_mem_stageDeleted {options : NotesQueryOptions} {l : List Note} {x : Note}
    (h : x ∈ stageDeleted options l) : x ∈ l := by
  unfold stageDeleted at h
  split at h
  · exact h
  · exact List.mem_of_mem_filter h

theorem mem_of_mem_stagePinned {options : NotesQueryOptions} {l : List Note} {x : Note}
    (h : x ∈ stagePinned options l) : x ∈ l := by
  unfold stagePinned at h
  split at h
  · exact List.mem_of_mem_filter h
  · exact h

theorem mem_of_mem_stageCategory {options : NotesQueryOptions} {l : List Note} {x : Note}
    (h : x ∈ stageCategory options l) : x ∈ l := by
  unfold stageCategory at h
  split at h
  · split at h
    · exact h
    · exact List.mem_of_mem_filter h
  · exact h

theorem mem_of_mem_stageTags {options : NotesQueryOptions} {l : List Note} {x : Note}
    (h : x ∈ stageTags options l) : x ∈ l := by
  unfold stageTags at h
  split at h
  · split at h
    · exact h
    · exact List.mem_of_mem_filter h
  · exact h

theorem mem_of_mem_stageSearch {options : NotesQueryOptions} {l : List Note} {x : Note}
    (h : x ∈ stageSearch options l) : x ∈ l := by
  unfold stageSearch at h
  split at h
  · split at h
    · exact h
    · exact List.mem_of_mem_filter h
  · exact h

theorem stageDeleted_eq_self {options : NotesQueryOptions} {l' l0 : List Note}
    (h : ∀ x ∈ l', x ∈ stageDeleted options l0) : stageDeleted options l' = l' := by
  unfold stageDeleted at *
  split
  · rfl
  · rename_i hI
    refine List.filter_eq_self.mpr fun x hx => ?_
    have := h x hx
    rw [if_neg hI] at this
    exact (List.mem_filter.mp this).2

theorem stagePinned_eq_self {options : NotesQueryOptions} {l' l0 : List Note}
    (h : ∀ x ∈ l', x ∈ stagePinned options l0) : stagePinned options l' = l' := by
  unfold stagePinned at *
  split
  · rename_i p hp
    refine List.filter_eq_self.mpr fun x hx => ?_
    have := h x hx
    rw [hp] at this
    exact (List.mem_filter.mp this).2
  · rfl

theorem stageCategory_eq_self {options : NotesQueryOptions} {l' l0 : List Note}
    (h : ∀ x ∈ l', x ∈ stageCategory options l0) : stageCategory options l' = l' := by
  unfold stageCategory at *
  split
  · rename_i c hc
    split
    · rfl
    · rename_i hne
      refine List.filter_eq_self.mpr fun x hx => ?_
      have := h x hx
      rw [hc] at this
      simp only [hne, if_false] at this
      exact (List.mem_filter.mp this).2
  · rfl

theorem stageTags_eq_self {options : NotesQueryOptions} {l' l0 : List Note}
    (h : ∀ x ∈ l', x ∈ stageTags options l0) : stageTags options l' = l' := by
  unfold stageTags at *
  split
  · rename_i ts hts
    split
    · rfl
    · rename_i hne
      refine List.filter_eq_self.mpr fun x hx => ?_
      have := h x hx
      rw [hts] at this
      simp only [hne, if_false] at this
      exact (List.mem_filter.mp this).2
  · rfl

theorem stageSearch_eq_self {options : NotesQueryOptions} {l' l0 : List Note}
    (h : ∀ x ∈ l', x ∈ stageSearch options l0) : stageSearch options l' = l' := by
  unfold stageSearch at *
  split
  · rename_i t ht
    split
    · rfl
    · rename_i hne
      refine List.filter_eq_self.mpr fun x hx => ?_
      have := h x hx
      rw [ht] at this
      simp only [hne, if_false] at this
      exact (List.mem_filter.mp this).2
  · rfl

/-- A list whose members all pass every active filter is left unchanged
by the filtering stages. -/
theorem applyFilters_eq_self_of_mem (l' l : List Note) (options : NotesQueryOptions)
    (h : ∀ x ∈ l', x ∈ applyFilters l options) : applyFilters l' options = l' := by
  unfold applyFilters at h
  have h4 : ∀ x ∈ l', x ∈ stageTags options
      (stageCategory options (stagePinned options (stageDeleted options l))) :=
    fun x hx => mem_of_mem_stageSearch (h x hx)
  have h3 : ∀ x ∈ l', x ∈ stageCategory options
      (stagePinned options (stageDeleted options l)) :=
    fun x hx => mem_of_mem_stageTags (h4 x hx)
  have h2 : ∀ x ∈ l', x ∈ stagePinned options (stageDeleted options l) :=
    fun x hx => mem_of_mem_stageCategory (h3 x hx)
  have h1 : ∀ x ∈ l', x ∈ stageDeleted options l :=
    fun x hx => mem_of_mem_stagePinned (h2 x hx)
  unfold applyFilters
  rw [stageDeleted_eq_self h1, stagePinned_eq_self h2, stageCategory_eq_self h3,
    stageTags_eq_self h4, stageSearch_eq_self h]

/-- C9: for filter-only options (no `offset`, no `limit`), the query is
stable — applying it again to its own output returns that output
unchanged (and, the embedding being a pure function of its arguments,
the same `notes` and `opts` always produce the same result and `notes`
itself is never modified). -/
theorem filterNotes_filter_only_stable (notes : List Note) (opts : NotesQueryOptions)
    (hoff : opts.offset = none) (hlim : opts.limit = none) :
    filterNotes (filterNotes notes opts) opts = filterNotes notes opts := by
  have hpag : ∀ l : List Note, applyPagination l opts = l := by
    intro l
    simp [applyPagination, hoff, hlim]
  have hres : filterNotes notes opts = applySort (applyFilters notes opts) opts := by
    rw [filterNotes, hpag]
  set le := sortLe (opts.sortBy.getD .updatedAt) (opts.sortOrder.getD .desc) with hle
  have htrans : ∀ a b c : Note, le a b = true → le b c = true → le a c = true :=
    fun a b c => sortLe_trans _ _ a b c
  have htotal : ∀ a b : Note, (le a b || le b a) = true :=
    fun a b => sortLe_total _ _ a b
  have hmemS : ∀ x ∈ filterNotes notes opts, x ∈ applyFilters notes opts := by
    intro x hx
    rw [hres] at hx
    exact List.mem_mergeSort.mp hx
  have hfilt : applyFilters (filterNotes notes opts) opts = filterNotes notes opts :=
    applyFilters_eq_self_of_mem _ _ _ hmemS
  have hsorted : (filterNotes notes opts).Pairwise (fun a b => le a b = true) := by
    rw [hres]
    exact List.sorted_mergeSort htrans htotal (applyFilters notes opts)
  calc filterNotes (filterNotes notes opts) opts
      = applySort (applyFilters (filterNotes notes opts) opts) opts := by
        rw [filterNotes, hpag]
    _ = applySort (filterNotes notes opts) opts := by rw [hfilt]
    _ = filterNotes notes opts := List.mergeSort_of_sorted hsorted

/-- C9 (witness): a concrete filter-only query applied twice. -/
theorem filterNotes_filter_only_stable_witness :
    ({ noQueryOptions with includeDeleted := some true } : NotesQueryOptions).offset
        = none ∧
    ({ noQueryOptions with includeDeleted := some true } : NotesQueryOptions).limit
        = none ∧
    filterNotes
        (filterNotes [sampleNote, { sampleNote with id := "note_2", isDeleted := true }]
          { noQueryOptions with includeDeleted := some true })
        { noQueryOptions with includeDeleted := some true } =
      filterNotes [sampleNote, { sampleNote with id := "note_2", isDeleted := true }]
        { noQueryOptions with includeDeleted := some true } :=
  ⟨rfl, rfl,
    filterNotes_filter_only_stable
      [sampleNote, { sampleNote with id := "note_2", isDeleted := true }]
      { noQueryOptions with includeDeleted := some true } rfl rfl⟩

/-! ## C8 — sort correctness -/

theorem applyPagination_sublist (l : List Note) (opts : NotesQueryOptions) :
    List.Sublist (applyPagination l opts) l := by
  simp only [applyPagination]
  split
  · split
    · exact ((l.drop (opts.offset.getD 0)).take_sublist _).trans (l.drop_sublist _)
    · exact l.drop_sublist _
  · exact List.Sublist.refl l

/-- C8: when sorting ascending by `title`, every adjacent pair (indeed
every pair) `(a, b)` of the query result satisfies
`a.title.toLowerCase() <= b.title.toLowerCase()`, and notes with equal
sort keys keep their relative input order (each equal-key fibre of the
result is a subsequence of that fibre of the filtered input, which is in
input order); when sorting ascending by `createdAt` or `updatedAt` the
result is ordered by those instants. -/
theorem filterNotes_sort_correct (notes : List Note) (opts : NotesQueryOptions) :
    (opts.sortBy = some .title → opts.sortOrder = some .asc →
      (filterNotes notes opts).Pairwise
        (fun a b => lexLe (jsToLower a.title).data (jsToLower b.title).data = true) ∧
      (∀ k : List Char,
        List.Sublist
          ((filterNotes notes opts).filter (fun n => (jsToLower n.title).data == k))
          ((applyFilters notes opts).filter (fun n => (jsToLower n.title).data == k)))) ∧
    (opts.sortBy = some .createdAt → opts.sortOrder = some .asc →
      (filterNotes notes opts).Pairwise (fun a b => a.createdAt ≤ b.createdAt)) ∧
    (opts.sortBy = some .updatedAt → opts.sortOrder = some .asc →
      (filterNotes notes opts).Pairwise (fun a b => a.updatedAt ≤ b.updatedAt)) := by
  have key : ∀ f o, opts.sortBy = some f → opts.sortOrder = some o →
      (filterNotes notes opts).Pairwise (fun a b => sortLe f o a b = true) := by
    intro f o hf ho
    have hsorted : (applySort (applyFilters notes opts) opts).Pairwise
        (fun a b => sortLe f o a b = true) := by
      unfold applySort
      rw [hf, ho]
      exact List.sorted_mergeSort (sortLe_trans f o) (sortLe_total f o) _
    exact hsorted.sublist (applyPagination_sublist _ _)
  refine ⟨?_, ?_, ?_⟩
  · intro hf ho
    constructor
    · exact (key .title .asc hf ho).imp (fun h => h)
    · intro k
      have hfix : ((applyFilters notes opts).mergeSort (sortLe .title .asc)).filter
            (fun n => (jsToLower n.title).data == k) =
          (applyFilters notes opts).filter (fun n => (jsToLower n.title).data == k) := by
        refine mergeSort_filter_fixed (sortLe_trans .title .asc) (sortLe_total .title .asc)
          _ _ (fun a b ha hb => ?_)
        have ha' : (jsToLower a.title).data = k := by simpa using ha
        have hb' : (jsToLower b.title).data = k := by simpa using hb
        simp only [sortLe, noteKeyLe, ha', hb']
        exact lexLe_refl k
      have hpag : List.Sublist
          ((filterNotes notes opts).filter (fun n => (jsToLower n.title).data == k))
          (((applyFilters notes opts).mergeSort (sortLe .title .asc)).filter
            (fun n => (jsToLower n.title).data == k)) := by
        unfold filterNotes applySort
        rw [hf, ho]
        exact (applyPagination_sublist _ _).filter _
      exact hfix ▸ hpag
  · intro hf ho
    refine (key .createdAt .asc hf ho).imp (fun h => ?_)
    simpa [sortLe, noteKeyLe] using h
  · intro hf ho
    refine (key .updatedAt .asc hf ho).imp (fun h => ?_)
    simpa [sortLe, noteKeyLe] using h

/-- C8 (witness): the title-ascending clauses at the spec's concrete
"Alpha"/"Gamma"/"Beta" scenario. -/
theorem filterNotes_sort_correct_witness :
    (filterNotes
        [{ sampleNote with id := "1", title := "Alpha" },
         { sampleNote with id := "2", title := "Gamma" },
         { sampleNote with id := "3", title := "Beta" }]
        { noQueryOptions with sortBy := some .title, sortOrder := some .asc }).Pairwise
      (fun a b => lexLe (jsToLower a.title).data (jsToLower b.title).data = true) ∧
    (∀ k : List Char,
      List.Sublist
        ((filterNotes
            [{ sampleNote with id := "1", title := "Alpha" },
             { sampleNote with id := "2", title := "Gamma" },
             { sampleNote with id := "3", title := "Beta" }]
            { noQueryOptions with
                sortBy := some .title
                sortOrder := some .asc }).filter
          (fun n => (jsToLower n.title).data == k))
        ((applyFilters
            [{ sampleNote with id := "1", title := "Alpha" },
             { sampleNote with id := "2", title := "Gamma" },
             { sampleNote with id := "3", title := "Beta" }]
            { noQueryOptions with
                sortBy := some .title
                sortOrder := some .asc }).filter
          (fun n => (jsToLower n.title).data == k))) :=
  (filterNotes_sort_correct
    [{ sampleNote with id := "1", title := "Alpha" },
     { sampleNote with id := "2", title := "Gamma" },
     { sampleNote with id := "3", title := "Beta" }]
    { noQueryOptions with sortBy := some .title, sortOrder := some .asc }).1 rfl rfl

/-! ## C7 — relevance scoring and ranked search -/

/-- The additive score exactly as the specification words it: +100 for a
title match at position 0 else +50; +25 for content; +30 for category;
+35 per matching tag; +10 if pinned; −50 if soft-deleted — all matches
case-insensitive substring containment.  (Stated independently of
`calculateScore`, to be compared against it.) -/
def specScore (note : Note) (searchTerm : String) : Int :=
  (if jsIncludes (jsToLower note.title) (jsToLower searchTerm) then
     (if jsStartsWith (jsToLower note.title) (jsToLower searchTerm) then 100 else 50)
   else 0)
  + (if jsIncludes (jsToLower note.content) (jsToLower searchTerm) then 25 else 0)
  + (match note.category with
     | some c => if jsIncludes (jsToLower c) (jsToLower searchTerm) then 30 else 0
     | none => 0)
  + 35 * (note.tags.countP
      (fun tag => jsIncludes (jsToLower tag) (jsToLower searchTerm)) : Int)
  + (if note.isPinned then 10 else 0)
  - (if note.isDeleted then 50 else 0)

theorem foldl_tag_score (q : String → Bool) :
    ∀ (ts : List String) (acc : Int),
      ts.foldl (fun acc tag => if q tag then acc + 35 else acc) acc
        = acc + 35 * (ts.countP q : Int)
  | [], acc => by simp
  | t :: ts, acc => by
    simp only [List.foldl_cons, List.countP_cons]
    rw [foldl_tag_score q ts]
    by_cases hq : q t <;> simp [hq] <;> push_cast <;> ring

theorem data_ne_nil_of_jsTrim_ne {s : String} (h : jsTrim s ≠ "") : s.data ≠ [] := by
  intro hnil
  apply h
  unfold jsTrim
  rw [hnil]
  rfl

theorem jsIncludes_empty_of_ne {sub : String} (h : sub.data ≠ []) :
    jsIncludes "" sub = false := by
  cases hs : sub.data with
  | nil => exact absurd hs h
  | cons c cs =>
    unfold jsIncludes containsL
    rw [hs]
    rfl

/-- `calculateScore` computes exactly the specified additive sum, for
every non-blank search term. -/
theorem calculateScore_eq_specScore (note : Note) (term : String)
    (h : jsTrim term ≠ "") : calculateScore note term = specScore note term := by
  have hne : (jsToLower term).data ≠ [] := by
    have hd := data_ne_nil_of_jsTrim_ne h
    simp only [jsToLower, ne_eq, List.map_eq_nil_iff]
    exact hd
  simp only [calculateScore, specScore]
  rw [foldl_tag_score]
  cases hcat : note.category with
  | none =>
    simp only [hcat]
    split_ifs <;> omega
  | some c =>
    simp only [hcat]
    rcases Bool.eq_false_or_eq_true (c == "") with hcc | hcc
    · have hemp : jsIncludes (jsToLower c) (jsToLower term) = false := by
        have hc : c = "" := eq_of_beq hcc
        rw [hc]
        exact jsIncludes_empty_of_ne hne
      simp only [hcc, hemp, Bool.not_true, Bool.false_and, Bool.false_eq_true,
        if_false]
      split_ifs <;> omega
    · simp only [hcc, Bool.not_false, Bool.true_and]
      split_ifs <;> omega

theorem searchNotes_map_item (notes : List Note) (term : String) :
    (notes.filterMap (searchResultOf term)).map (·.item)
      = notes.filter (fun n => decide (0 < calculateScore n term)) := by
  induction notes with
  | nil => rfl
  | cons n ns ih =>
    simp only [List.filterMap_cons, List.filter_cons]
    by_cases hp : 0 < calculateScore n term
    · simp [searchResultOf, hp, ih]
    · simp [searchResultOf, hp, ih]

/-- C7: for every non-blank search term: (1) `calculateScore` equals the
specified additive sum for every note; and `searchNotes` (2) returns
exactly the notes with positive score, (3) sorted by non-increasing
score, (4) with ties kept in input order (each equal-score fibre of the
output equals that fibre of the in-order result list). -/
theorem searchNotes_spec (notes : List Note) (term : String)
    (h : jsTrim term ≠ "") :
    (∀ note, calculateScore note term = specScore note term) ∧
    ((searchNotes notes term).map (·.item)).Perm
      (notes.filter (fun n => decide (0 < calculateScore n term))) ∧
    (searchNotes notes term).Pairwise (fun a b => b.score ≤ a.score) ∧
    (∀ sc : Int,
      (searchNotes notes term).filter (fun r => r.score == sc)
        = (notes.filterMap (searchResultOf term)).filter (fun r => r.score == sc)) := by
  have hsn : searchNotes notes term
      = (notes.filterMap (searchResultOf term)).mergeSort
          (fun a b => decide (b.score ≤ a.score)) := by
    simp [searchNotes, h]
  have htrans : ∀ a b c : SearchResult,
      decide (b.score ≤ a.score) = true → decide (c.score ≤ b.score) = true →
      decide (c.score ≤ a.score) = true := by
    intro a b c h1 h2
    simp only [decide_eq_true_eq] at *
    omega
  have htotal : ∀ a b : SearchResult,
      (decide (b.score ≤ a.score) || decide (a.score ≤ b.score)) = true := by
    intro a b
    by_cases hab : b.score ≤ a.score <;> simp [hab] <;> omega
  refine ⟨fun note => calculateScore_eq_specScore note term h, ?_, ?_, ?_⟩
  · rw [hsn, ← searchNotes_map_item]
    exact (List.mergeSort_perm _ _).map _
  · rw [hsn]
    exact (List.sorted_mergeSort htrans htotal _).imp (fun hab => of_decide_eq_true hab)
  · intro sc
    rw [hsn]
    refine mergeSort_filter_fixed htrans htotal _ _ (fun a b ha hb => ?_)
    have ha' : a.score = sc := by simpa using ha
    have hb' : b.score = sc := by simpa using hb
    simp [ha', hb']

/-- C7 (witness): searching three concrete notes for `"cats"`. -/
theorem searchNotes_spec_witness :
    jsTrim "cats" ≠ "" ∧
    ((∀ note, calculateScore note "cats" = specScore note "cats") ∧
     ((searchNotes
          [{ sampleNote with id := "1", title := "b cats" },
           { sampleNote with id := "2", title := "cats z" },
           { sampleNote with id := "3", title := "x", isDeleted := true }]
          "cats").map (·.item)).Perm
       ([{ sampleNote with id := "1", title := "b cats" },
         { sampleNote with id := "2", title := "cats z" },
         { sampleNote with id := "3", title := "x", isDeleted := true }].filter
         (fun n => decide (0 < calculateScore n "cats"))) ∧
     (searchNotes
          [{ sampleNote with id := "1", title := "b cats" },
           { sampleNote with id := "2", title := "cats z" },
           { sampleNote with id := "3", title := "x", isDeleted := true }]
          "cats").Pairwise (fun a b => b.score ≤ a.score) ∧
     (∀ sc : Int,
       (searchNotes
            [{ sampleNote with id := "1", title := "b cats" },
             { sampleNote with id := "2", title := "cats z" },
             { sampleNote with id := "3", title := "x", isDeleted := true }]
            "cats").filter (fun r => r.score == sc)
         = ([{ sampleNote with id := "1", title := "b cats" },
             { sampleNote with id := "2", title := "cats z" },
             { sampleNote with id := "3", title := "x", isDeleted := true }].filterMap
             (searchResultOf "cats")).filter (fun r => r.score == sc))) :=
  ⟨by decide,
    searchNotes_spec
      [{ sampleNote with id := "1", title := "b cats" },
       { sampleNote with id := "2", title := "cats z" },
       { sampleNote with id := "3", title := "x", isDeleted := true }]
      "cats" (by decide)⟩

/-! ## C4 — backup retention bound -/

theorem length_getBackupList (s : BackupStore) :
    (getBackupList s).length = s.backupList.length := by
  simp [getBackupList, sortBackups]

theorem deleteBackup_backupList_perm (s : BackupStore) (backupId : String) :
    ((deleteBackup s backupId).backupList).Perm
      (s.backupList.filter (fun m => !(m.id == backupId))) := by
  unfold deleteBackup getBackupList sortBackups
  exact (List.mergeSort_perm _ _).filter _

theorem foldl_deleteBackup_perm :
    ∀ (D : List BackupMetadata) (s : BackupStore),
      ((D.foldl (fun st b => deleteBackup st b.id) s).backupList).Perm
        (s.backupList.filter (fun m => D.all (fun b => !(m.id == b.id))))
  | [], s => by simp
  | d :: D, s => by
    rw [List.foldl_cons]
    refine (foldl_deleteBackup_perm D (deleteBackup s d.id)).trans ?_
    refine ((deleteBackup_backupList_perm s d.id).filter _).trans ?_
    rw [List.filter_filter]
    refine List.Perm.of_eq (List.filter_congr fun m _ => ?_)
    simp only [List.all_cons]
    rw [Bool.and_comm]

theorem cleanupOldBackups_length (s : BackupStore) :
    ((cleanupOldBackups s).backupList).length ≤ MAX_BACKUP_FILES := by
  simp only [cleanupOldBackups]
  split
  · rename_i hle
    rwa [length_getBackupList] at hle
  · rename_i hgt
    set D := (sortBackups (getBackupList s)).drop MAX_BACKUP_FILES with hD
    have hperm := foldl_deleteBackup_perm D s
    rw [hperm.length_eq]
    set P : BackupMetadata → Bool := fun m => D.all (fun b => !(m.id == b.id)) with hP
    have hp2 : (sortBackups (getBackupList s)).Perm s.backupList := by
      unfold getBackupList sortBackups
      exact (List.mergeSort_perm _ _).trans (List.mergeSort_perm _ _)
    rw [← (hp2.filter P).length_eq]
    have hsplit : (sortBackups (getBackupList s)).filter P =
        ((sortBackups (getBackupList s)).take MAX_BACKUP_FILES).filter P ++
          ((sortBackups (getBackupList s)).drop MAX_BACKUP_FILES).filter P := by
      rw [← List.filter_append, List.take_append_drop]
    have hnil : ((sortBackups (getBackupList s)).drop MAX_BACKUP_FILES).filter P = [] := by
      refine List.filter_eq_nil_iff.mpr fun m hm => ?_
      intro hall
      have := (List.all_eq_true.mp hall) m (hD ▸ hm)
      simp at this
    rw [hsplit, hnil, List.append_nil]
    exact Nat.le_trans (List.length_filter_le _ _)
      (Nat.le_trans (List.length_take_le _ _) (Nat.le_refl _))

theorem createBackup_backupList_length (s : BackupStore) (source backupId : String)
    (now sizeVal : Nat) :
    (((createBackup s source backupId now sizeVal).2).backupList).length
      ≤ MAX_BACKUP_FILES := by
  unfold createBackup
  exact cleanupOldBackups_length _

/-- A sequence of `createBackup` calls, each given by
`(source, backupId, now, sizeVal)`. -/
def runCreateBackups (s : BackupStore) (calls : List (String × String × Nat × Nat)) :
    BackupStore :=
  calls.foldl (fun st c => (createBackup st c.1 c.2.1 c.2.2.1 c.2.2.2).2) s

/-- C4: starting from any store whose backup index holds at most
`MAX_BACKUP_FILES` entries, after any number of `createBackup` calls the
list returned by `getBackupList` still has at most `MAX_BACKUP_FILES`
(5) entries — each `createBackup` runs the retention cleanup, which
deletes entries past the first `MAX_BACKUP_FILES` of the
newest-first-sorted index (the oldest by timestamp) until the cap is
met. -/
theorem backup_retention_bound (s : BackupStore)
    (calls : List (String × String × Nat × Nat))
    (h : (getBackupList s).length ≤ MAX_BACKUP_FILES) :
    (getBackupList (runCreateBackups s calls)).length ≤ MAX_BACKUP_FILES := by
  induction calls generalizing s with
  | nil => simpa [runCreateBackups] using h
  | cons c cs ih =>
    have hstep : (getBackupList
        ((createBackup s c.1 c.2.1 c.2.2.1 c.2.2.2).2)).length ≤ MAX_BACKUP_FILES := by
      rw [length_getBackupList]
      exact createBackup_backupList_length s c.1 c.2.1 c.2.2.1 c.2.2.2
    have : runCreateBackups s (c :: cs)
        = runCreateBackups ((createBackup s c.1 c.2.1 c.2.2.1 c.2.2.2).2) cs := by
      simp [runCreateBackups]
    rw [this]
    exact ih _ hstep

/-- An initially empty store with one live note and no settings. -/
def emptyBackupStore : BackupStore :=
  { records := []
    backupList := []
    lastBackup := none
    notes := [sampleNote]
    settings := none }

/-- C4 (witness): seven consecutive backups on an initially empty store. -/
theorem backup_retention_bound_witness :
    (getBackupList emptyBackupStore).length ≤ MAX_BACKUP_FILES ∧
    (getBackupList (runCreateBackups emptyBackupStore
        [("manual", "b1", 1, 0), ("manual", "b2", 2, 0), ("manual", "b3", 3, 0),
         ("manual", "b4", 4, 0), ("manual", "b5", 5, 0), ("manual", "b6", 6, 0),
         ("manual", "b7", 7, 0)])).length ≤ MAX_BACKUP_FILES :=
  ⟨by simp [getBackupList, sortBackups, emptyBackupStore],
    backup_retention_bound emptyBackupStore
      [("manual", "b1", 1, 0), ("manual", "b2", 2, 0), ("manual", "b3", 3, 0),
       ("manual", "b4", 4, 0), ("manual", "b5", 5, 0), ("manual", "b6", 6, 0),
       ("manual", "b7", 7, 0)]
      (by simp [getBackupList, sortBackups, emptyBackupStore])⟩

/-! ## C5 — backup round trip -/

theorem backupKey_inj {a b : String} (h : backupKey a = backupKey b) : a = b := by
  unfold backupKey at h
  have hd := congrArg String.data h
  simp only [String.data_append] at hd
  have h2 := List.append_cancel_left hd
  cases a
  cases b
  simp only at h2
  rw [h2]

theorem kvGet_kvSet_same (l : List (String × BackupData)) (k : String) (v : BackupData) :
    kvGet (kvSet l k v) k = some v := by
  simp [kvGet, kvSet]

theorem kvGet_cons_of_ne {p : String × BackupData} {ps : List (String × BackupData)}
    {k : String} (hk : (p.1 == k) = false) : kvGet (p :: ps) k = kvGet ps k := by
  simp [kvGet, List.find?_cons, hk]

theorem kvGet_cons_of_eq {p : String × BackupData} {ps : List (String × BackupData)}
    {k : String} (hk : (p.1 == k) = true) : kvGet (p :: ps) k = some p.2 := by
  simp [kvGet, List.find?_cons, hk]

theorem kvGet_kvRemove_ne (l : List (String × BackupData)) {k' k : String}
    (h : k ≠ k') : kvGet (kvRemove l k') k = kvGet l k := by
  induction l with
  | nil => rfl
  | cons p ps ih =>
    by_cases hp : (p.1 == k') = true
    · have hp1 : p.1 = k' := eq_of_beq hp
      have hk : (p.1 == k) = false :=
        beq_eq_false_iff_ne.mpr fun he => h (he ▸ hp1)
      have hrm : kvRemove (p :: ps) k' = kvRemove ps k' := by
        simp [kvRemove, List.filter_cons, hp]
      rw [hrm, kvGet_cons_of_ne hk]
      exact ih
    · have hrm : kvRemove (p :: ps) k' = p :: kvRemove ps k' := by
        simp [kvRemove, List.filter_cons, hp]
      rw [hrm]
      rcases Bool.eq_false_or_eq_true (p.1 == k) with hk | hk
      · rw [kvGet_cons_of_eq hk, kvGet_cons_of_eq hk]
      · rw [kvGet_cons_of_ne hk, kvGet_cons_of_ne hk]
        exact ih

theorem deleteBackup_records_get (s : BackupStore) (backupId k : String)
    (h : k ≠ backupKey backupId) :
    kvGet (deleteBackup s backupId).records k = kvGet s.records k := by
  unfold deleteBackup
  exact kvGet_kvRemove_ne s.records h

theorem foldl_deleteBackup_records :
    ∀ (D : List BackupMetadata) (s : BackupStore) (k : String),
      (∀ d ∈ D, k ≠ backupKey d.id) →
      kvGet ((D.foldl (fun st b => deleteBackup st b.id) s).records) k
        = kvGet s.records k
  | [], _, _, _ => rfl
  | d :: D, s, k, h => by
    rw [List.foldl_cons,
      foldl_deleteBackup_records D (deleteBackup s d.id) k
        (fun x hx => h x (by simp [hx]))]
    exact deleteBackup_records_get s d.id k (h d (by simp))

theorem applyNoteOp_records (s : BackupStore) (op : NoteOp) :
    (applyNoteOp s op).records = s.records := by
  cases op <;> rfl

theorem foldl_applyNoteOp_records :
    ∀ (ops : List NoteOp) (s : BackupStore),
      ((ops.foldl applyNoteOp s).records) = s.records
  | [], _ => rfl
  | op :: ops, s => by
    rw [List.foldl_cons, foldl_applyNoteOp_records ops (applyNoteOp s op),
      applyNoteOp_records]

/-- After `createBackup` (with a fresh id and a capture instant strictly
later than every retained backup's timestamp), the stored backup record
survives the retention cleanup and snapshots the live notes. -/
theorem createBackup_keeps_record (s : BackupStore) (source backupId : String)
    (now sizeVal : Nat)
    (hid : ∀ m ∈ s.backupList, m.id ≠ backupId)
    (hts : ∀ m ∈ s.backupList, m.timestamp < now) :
    ∃ data : BackupData,
      kvGet ((createBackup s source backupId now sizeVal).2).records
          (backupKey backupId) = some data ∧
      data.notes = s.notes := by
  refine ⟨{ version := APP_VERSION
            timestamp := now
            notes := s.notes
            settings := s.settings.getD default
            metadata :=
              { notesCount := s.notes.length
                categoriesCount := categoriesCount s.notes
                tagsCount := tagsCount s.notes
                backupSource := source } }, ?_, rfl⟩
  set metadata : BackupMetadata :=
    { id := backupId
      timestamp := now
      notesCount := s.notes.length
      size := sizeVal
      source := source } with hmeta
  set data : BackupData :=
    { version := APP_VERSION
      timestamp := now
      notes := s.notes
      settings := s.settings.getD default
      metadata :=
        { notesCount := s.notes.length
          categoriesCount := categoriesCount s.notes
          tagsCount := tagsCount s.notes
          backupSource := source } } with hdata
  set s3 : BackupStore :=
    { records := kvSet s.records (backupKey backupId) data
      backupList := metadata :: sortBackups s.backupList
      lastBackup := some now
      notes := s.notes
      settings := s.settings } with hs3
  have hcb : (createBackup s source backupId now sizeVal).2 = cleanupOldBackups s3 := rfl
  rw [hcb]
  simp only [cleanupOldBackups]
  split
  · exact kvGet_kvSet_same s.records (backupKey backupId) data
  · rename_i hgt
    set L2 : List BackupMetadata := sortBackups (getBackupList s3) with hL2
    rw [foldl_deleteBackup_records (L2.drop MAX_BACKUP_FILES) s3 (backupKey backupId) ?hne]
    · exact kvGet_kvSet_same s.records (backupKey backupId) data
    case hne =>
      intro d hd hkeq
      have hdid : d.id = backupId := (backupKey_inj hkeq).symm
      have hpermL2 : L2.Perm (metadata :: sortBackups s.backupList) := by
        have h1 : L2.Perm (getBackupList s3) := List.mergeSort_perm _ _
        have h2 : (getBackupList s3).Perm s3.backupList := List.mergeSort_perm _ _
        exact (h1.trans h2)
      have hdL2 : d ∈ L2 := List.mem_of_mem_drop hd
      have hold : ∀ m ∈ sortBackups s.backupList, m ∈ s.backupList := fun m hm =>
        (List.mergeSort_perm _ _).mem_iff.mp hm
      rcases List.mem_cons.mp (hpermL2.mem_iff.mp hdL2) with hd1 | hd2
      · -- d is the freshly created metadata: impossible, it is kept.
        have hmD : metadata ∈ L2.drop MAX_BACKUP_FILES := hd1 ▸ hd
        have hlenL2 : MAX_BACKUP_FILES < L2.length := by
          have : L2.length = (getBackupList s3).length := List.length_mergeSort _
          omega
        have htake_len : (L2.take MAX_BACKUP_FILES).length = MAX_BACKUP_FILES := by
          rw [List.length_take]
          omega
        have htake_ne : L2.take MAX_BACKUP_FILES ≠ [] := by
          intro h0
          rw [h0] at htake_len
          simp [MAX_BACKUP_FILES] at htake_len
        obtain ⟨y, hy⟩ := List.exists_mem_of_ne_nil _ htake_ne
        have hpw : L2.Pairwise (fun a b => backupLE a b = true) :=
          List.sorted_mergeSort backupLE_trans backupLE_total _
        have hpw' : ((L2.take MAX_BACKUP_FILES) ++
            (L2.drop MAX_BACKUP_FILES)).Pairwise (fun a b => backupLE a b = true) := by
          rw [List.take_append_drop]
          exact hpw
        have hyx : backupLE y metadata = true :=
          (List.pairwise_append.mp hpw').2.2 y hy metadata hmD
        have hts_y : now ≤ y.timestamp := by
          simpa [backupLE, hmeta] using hyx
        have hyL2 : y ∈ L2 := List.mem_of_mem_take hy
        rcases List.mem_cons.mp (hpermL2.mem_iff.mp hyL2) with hy1 | hy2
        · -- y = metadata too: metadata would occur twice in L2.
          have hnotold : metadata ∉ sortBackups s.backupList := by
            intro hmem'
            exact (hid _ (hold _ hmem')) rfl
          have hc2 : (metadata :: sortBackups s.backupList).count metadata = 1 := by
            rw [List.count_cons_self, List.count_eq_zero.mpr hnotold]
          have hc1 : L2.count metadata = 1 := by
            rw [hpermL2.count_eq]
            exact hc2
          have hcsplit : L2.count metadata
              = (L2.take MAX_BACKUP_FILES).count metadata
                + (L2.drop MAX_BACKUP_FILES).count metadata := by
            conv_lhs => rw [← List.take_append_drop MAX_BACKUP_FILES L2]
            rw [List.count_append]
          have hctake : 0 < (L2.take MAX_BACKUP_FILES).count metadata :=
            List.count_pos_iff.mpr (hy1 ▸ hy)
          have hcdrop : 0 < (L2.drop MAX_BACKUP_FILES).count metadata :=
            List.count_pos_iff.mpr hmD
          omega
        · -- y is an old backup: its timestamp is < now, contradiction.
          have := hts y (hold y hy2)
          omega
      · -- d is an old backup: its id differs from the fresh backupId.
        exact (hid d (hold d hd2)) hdid

/-- C5: restoring the backup created earlier overwrites the live note
collection with one equal to the collection at backup time, whatever
note mutations (create/update/soft-delete/restore/permanent-delete/
clear) happened in between.  Hypotheses: the generated backup id is
fresh and the capture instant is later than every retained backup's
timestamp (both guaranteed by the id generator and clock in the
source). -/
theorem backup_restore_roundtrip (s : BackupStore) (source backupId : String)
    (now sizeVal : Nat) (ops : List NoteOp)
    (hid : ∀ m ∈ s.backupList, m.id ≠ backupId)
    (hts : ∀ m ∈ s.backupList, m.timestamp < now) :
    ∃ s' : BackupStore,
      restoreBackup
          (ops.foldl applyNoteOp ((createBackup s source backupId now sizeVal).2))
          backupId
        = (.ok (), s') ∧ s'.notes = s.notes := by
  obtain ⟨data, hget, hnotes⟩ :=
    createBackup_keeps_record s source backupId now sizeVal hid hts
  have hrec : kvGet
      ((ops.foldl applyNoteOp ((createBackup s source backupId now sizeVal).2)).records)
      (backupKey backupId) = some data := by
    rw [foldl_applyNoteOp_records]
    exact hget
  refine ⟨{ (ops.foldl applyNoteOp ((createBackup s source backupId now sizeVal).2)) with
      notes := data.notes
      settings := some data.settings }, ?_, hnotes⟩
  unfold restoreBackup
  rw [hrec]

/-- C5 (witness): backup, then create and soft-delete notes, then
restore, on a concrete store. -/
theorem backup_restore_roundtrip_witness :
    (∀ m ∈ emptyBackupStore.backupList, m.id ≠ "b1") ∧
    (∀ m ∈ emptyBackupStore.backupList, m.timestamp < 10) ∧
    ∃ s' : BackupStore,
      restoreBackup
          ([NoteOp.createN validTitleInput "note_2" 11,
            NoteOp.deleteN "note_1" 12].foldl applyNoteOp
            ((createBackup emptyBackupStore "manual" "b1" 10 0).2))
          "b1"
        = (.ok (), s') ∧ s'.notes = emptyBackupStore.notes :=
  ⟨by simp [emptyBackupStore], by simp [emptyBackupStore],
    backup_restore_roundtrip emptyBackupStore "manual" "b1" 10 0
      [NoteOp.createN validTitleInput "note_2" 11, NoteOp.deleteN "note_1" 12]
      (by simp [emptyBackupStore]) (by simp [emptyBackupStore])⟩

/-! ## C6 — importBackup structural validation -/

/-- C6: any parsed JSON value failing one of the structural conditions —
`version` not a string, `timestamp` absent, `notes` not a list,
`settings` absent, or `metadata.notesCount` absent — is rejected by
`importBackup` with the `InvalidFormat` error, and the store is
completely unchanged: no backup record is written and no index entry is
added. -/
theorem importBackup_invalid_rejected (s : BackupStore) (v : JValue)
    (backupId : String) (now jsonLength : Nat)
    (h : isStringValue (getField v "version") = false ∨
         getField v "timestamp" = none ∨
         isArrayValue (getField v "notes") = false ∨
         getField v "settings" = none ∨
         (getField v "metadata").bind (fun m => getField m "notesCount") = none) :
    importBackup s v backupId now jsonLength = (.error INVALID_BACKUP_FORMAT, s) := by
  have hval : validateBackupData v = false := by
    unfold validateBackupData
    rcases h with h | h | h | h | h
    · simp [h]
    · simp [h, jsTruthyOpt]
    · simp [h]
    · simp [h, jsTruthyOpt]
    · have hn : isNumberValue
          ((getField v "metadata").bind (fun m => getField m "notesCount")) = false := by
        rw [h]
        rfl
      simp [hn]
  simp [importBackup, hval]

/-- The spec's concrete scenario: a backup JSON whose `metadata` object
lacks `notesCount`. -/
def missingCountBackup : JValue :=
  .obj [("version", .str "1.0.0"), ("timestamp", .num 5), ("notes", .arr []),
        ("settings", .obj []), ("metadata", .obj [])]

/-- C6 (witness): importing the `metadata.notesCount`-less backup fails
with `InvalidFormat` and writes nothing. -/
theorem importBackup_invalid_rejected_witness :
    ((getField missingCountBackup "metadata").bind
        (fun m => getField m "notesCount") = none) ∧
    importBackup emptyBackupStore missingCountBackup "b1" 10 100
      = (.error INVALID_BACKUP_FORMAT, emptyBackupStore) :=
  ⟨rfl,
    importBackup_invalid_rejected emptyBackupStore missingCountBackup "b1" 10 100
      (Or.inr (Or.inr (Or.inr (Or.inr rfl))))⟩
